import Mathlib

/-!
Shallow embedding of the budget_cursor row-interpretation and
reconciliation engine: the column classifier and field extractors of
`backend/app/csv_validator.py` (class `CSVRowValidator`) and the
fingerprint / merge machinery of `backend/app/main.py`
(`generate_row_fingerprint`, `rows_match`, `merge_mappings_for_file`).

Python strings are modelled as Lean `String` (with most character-level
work on `List Char`), Python floats as exact rationals `ℚ`, Python dicts
(`Dict[str, str]`) as insertion-ordered association lists, and
`datetime` values as a calendar-date record (all parsed values here are
pure dates).
-/

namespace Budget

/-- A CSV row: an ordered association list from header name to raw cell
value, modelling a Python `Dict[str, str]` (insertion-ordered; a real
dict has no duplicate keys, and lookups return the first binding). -/
abbrev RowData := List (String × String)

/-- Models `row_data.get(key)`. -/
def rowGet (row : RowData) (key : String) : Option String :=
  row.lookup key

/-- ASCII lower-casing of one character, as `str.lower()` acts on the
ASCII headers and values this repository handles. -/
def lowerChar (c : Char) : Char :=
  if 'A' ≤ c && c ≤ 'Z' then Char.ofNat (c.toNat + 32) else c

/-- Models `s.lower()`. -/
def strLower (s : String) : String := String.mk (s.data.map lowerChar)

/-- Python substring test `pat in l` on character lists. -/
def listContains (l pat : List Char) : Bool :=
  l.tails.any (fun t => pat.isPrefixOf t)

/-- Python substring test `pat in s`. -/
def strContains (s pat : String) : Bool :=
  listContains s.data pat.data

/-- Models `str.strip()` on a character list (both-ends whitespace removal). -/
def trimChars (l : List Char) : List Char :=
  ((l.dropWhile Char.isWhitespace).reverse.dropWhile Char.isWhitespace).reverse

/-- Models `str.strip()`. -/
def pyStrip (s : String) : String := String.mk (trimChars s.data)

/-- Models `s.split(sep)` semantics on character lists (always at least one
part; empty parts kept). -/
def splitOnChar (sep : Char) : List Char → List (List Char)
  | [] => [[]]
  | c :: rest =>
    match splitOnChar sep rest with
    | [] => [[]]
    | h :: t => if c = sep then [] :: h :: t else (c :: h) :: t

/-- Decimal digits to a natural number (`int(...)` on digit strings). -/
def digitsToNat (l : List Char) : Nat :=
  l.foldl (fun n c => n * 10 + (c.toNat - 48)) 0

/-- One step of `re.sub(r"(\d+)(st|nd|rd|th)", r"\1", ...)`: the flag
records whether the previously emitted character was a digit, so a
two-character ordinal suffix is dropped exactly when it follows a digit
run, and scanning resumes after the dropped suffix. -/
def stripOrdinalsGo (prevDigit : Bool) : List Char → List Char
  | [] => []
  | [c] => [c]
  | a :: b :: rest =>
    if prevDigit && ((a = 's' && b = 't') || (a = 'n' && b = 'd')
        || (a = 'r' && b = 'd') || (a = 't' && b = 'h'))
    then stripOrdinalsGo false rest
    else a :: stripOrdinalsGo a.isDigit (b :: rest)

/-- Models `re.sub(r"(\d+)(st|nd|rd|th)", r"\1", candidate)`. -/
def stripOrdinals (l : List Char) : List Char := stripOrdinalsGo false l

/-! ### Column classification (`CSVRowValidator.__init__`) -/

/-- The amount keyword list `["amount", "debit", "credit", "value", "charge"]`. -/
def amountTokens : List String := ["amount", "debit", "credit", "value", "charge"]

/-- Models `"date" in header.lower()`. -/
def isDateHeader (h : String) : Bool := strContains (strLower h) "date"

/-- Models `any(token in header.lower() for token in amountTokens)`. -/
def isAmountHeader (h : String) : Bool :=
  amountTokens.any (fun t => strContains (strLower h) t)

/-- Models `self.date_columns`: indices of truthy headers containing "date". -/
def date_columns (headers : List String) : List Nat :=
  (List.range headers.length).filter (fun i =>
    headers.getD i "" ≠ "" && isDateHeader (headers.getD i ""))

/-- Models `self.amount_columns`: indices of truthy headers containing an
amount keyword (independently of the date check). -/
def amount_columns (headers : List String) : List Nat :=
  (List.range headers.length).filter (fun i =>
    headers.getD i "" ≠ "" && isAmountHeader (headers.getD i ""))

/-- Models `self.description_columns`: truthy headers containing neither "date"
nor an amount keyword. -/
def description_columns (headers : List String) : List Nat :=
  (List.range headers.length).filter (fun i =>
    headers.getD i "" ≠ "" && !(isDateHeader (headers.getD i ""))
      && !(isAmountHeader (headers.getD i "")))

/-! ### Date parsing (`CSVRowValidator.extract_transaction_date`) -/

/-- A calendar date as produced by Python `datetime` parsing here (the
time component is always midnight and is dropped). -/
structure PyDate where
  year : Nat
  month : Nat
  day : Nat
deriving DecidableEq, Repr

def isLeapYear (y : Nat) : Bool :=
  y % 4 = 0 && (y % 100 ≠ 0 || y % 400 = 0)

def daysInMonth (y m : Nat) : Nat :=
  if m = 2 then (if isLeapYear y then 29 else 28)
  else if m = 4 || m = 6 || m = 9 || m = 11 then 30 else 31

/-- The `datetime(year, month, day)` constructor check
(`MINYEAR = 1`, `MAXYEAR = 9999`, day within the month). -/
def mkValidDate (y m d : Nat) : Option PyDate :=
  if 1 ≤ y && y ≤ 9999 && 1 ≤ m && m ≤ 12 && 1 ≤ d && d ≤ daysInMonth y m
  then some ⟨y, m, d⟩ else none

/-- CPython `_strptime` component pattern for `%Y`: exactly four digits. -/
def parseY4 (p : List Char) : Option Nat :=
  if p.length = 4 && p.all Char.isDigit then some (digitsToNat p) else none

/-- Models `%y`: exactly two digits; 00–68 map to 2000–2068, 69–99 to 1969–1999. -/
def parseY2 (p : List Char) : Option Nat :=
  if p.length = 2 && p.all Char.isDigit then
    some (if digitsToNat p ≤ 68 then 2000 + digitsToNat p else 1900 + digitsToNat p)
  else none

/-- Models `%m`: one or two digits with value 1–12. -/
def parseMonth (p : List Char) : Option Nat :=
  if (p.length = 1 || p.length = 2) && p.all Char.isDigit
      && 1 ≤ digitsToNat p && digitsToNat p ≤ 12
  then some (digitsToNat p) else none

/-- Models `%d`: one or two digits with value 1–31. -/
def parseDay (p : List Char) : Option Nat :=
  if (p.length = 1 || p.length = 2) && p.all Char.isDigit
      && 1 ≤ digitsToNat p && digitsToNat p ≤ 31
  then some (digitsToNat p) else none

inductive YearKind where
  | y4
  | y2
deriving DecidableEq, Repr

/-- Order of the three components in a date format string. -/
inductive FieldOrder where
  | ymd
  | mdy
  | dmy
deriving DecidableEq, Repr

/-- One `strptime` format of the shape used by the source: three
components joined by a single separator character. -/
structure DateFormat where
  sep : Char
  ord : FieldOrder
  yk : YearKind
deriving DecidableEq, Repr

def parseYearK : YearKind → List Char → Option Nat
  | .y4 => parseY4
  | .y2 => parseY2

/-- Models `datetime.strptime(candidate, fmt)` for the separator-delimited
date-only formats in the source's list (full-string match, component
patterns as in CPython `_strptime`, then `datetime` validity). -/
def strptimeFmt (fmt : DateFormat) (l : List Char) : Option PyDate :=
  match splitOnChar fmt.sep l with
  | [p1, p2, p3] =>
    match fmt.ord with
    | .ymd => do
      let y ← parseYearK fmt.yk p1
      let m ← parseMonth p2
      let d ← parseDay p3
      mkValidDate y m d
    | .mdy => do
      let m ← parseMonth p1
      let d ← parseDay p2
      let y ← parseYearK fmt.yk p3
      mkValidDate y m d
    | .dmy => do
      let d ← parseDay p1
      let m ← parseMonth p2
      let y ← parseYearK fmt.yk p3
      mkValidDate y m d
  | _ => none

/-- The source's `date_formats` list, in order: `%Y-%m-%d`, `%m/%d/%Y`,
`%d/%m/%Y`, `%Y/%m/%d`, `%m-%d-%Y`, `%d-%m-%Y`, `%m/%d/%y`, `%d/%m/%y`,
`%m-%d-%y`, `%d-%m-%y`. -/
def dateFormats : List DateFormat :=
  [⟨'-', .ymd, .y4⟩, ⟨'/', .mdy, .y4⟩, ⟨'/', .dmy, .y4⟩, ⟨'/', .ymd, .y4⟩,
   ⟨'-', .mdy, .y4⟩, ⟨'-', .dmy, .y4⟩, ⟨'/', .mdy, .y2⟩, ⟨'/', .dmy, .y2⟩,
   ⟨'-', .mdy, .y2⟩, ⟨'-', .dmy, .y2⟩]

/-- Models `datetime.fromisoformat` restricted to date-only `YYYY-MM-DD`
strings: the general ISO fallback in the source; date-with-time forms
are not modelled (no claim reaches them: every cell is a date cell). -/
def fromisoformat (l : List Char) : Option PyDate :=
  match splitOnChar '-' l with
  | [py, pm, pd] =>
    if py.length = 4 && pm.length = 2 && pd.length = 2
        && py.all Char.isDigit && pm.all Char.isDigit && pd.all Char.isDigit
    then mkValidDate (digitsToNat py) (digitsToNat pm) (digitsToNat pd)
    else none
  | _ => none

/-- The `for fmt in date_formats: try strptime` loop: first success wins. -/
def tryFormats (l : List Char) : List DateFormat → Option PyDate
  | [] => none
  | f :: rest =>
    match strptimeFmt f l with
    | some d => some d
    | none => tryFormats l rest

/-- Per-candidate date parsing: the ten formats in order, then the
ISO fallback (the candidate is already stripped and ordinal-cleaned). -/
def parseDateCandidate (l : List Char) : Option PyDate :=
  match tryFormats l dateFormats with
  | some d => some d
  | none => fromisoformat l

/-- The loop over `self.date_columns` in `extract_transaction_date`. -/
def extractDateFromCols (headers : List String) (row : RowData) : List Nat → Option PyDate
  | [] => none
  | i :: rest =>
    match headers.get? i with
    | none => extractDateFromCols headers row rest
    | some key =>
      let value := (rowGet row key).getD ""
      if value = "" then extractDateFromCols headers row rest
      else
        let candidate := trimChars value.data
        if candidate = [] then extractDateFromCols headers row rest
        else
          match parseDateCandidate (stripOrdinals candidate) with
          | some d => some d
          | none => extractDateFromCols headers row rest

/-- The fallback loop over all row items whose key contains "date". -/
def extractDateFallback : RowData → Option PyDate
  | [] => none
  | (key, value) :: rest =>
    if !(strContains (strLower key) "date") then extractDateFallback rest
    else
      let candidate := trimChars value.data
      if candidate = [] then extractDateFallback rest
      else
        match parseDateCandidate (stripOrdinals candidate) with
        | some d => some d
        | none => extractDateFallback rest

/-- Models `CSVRowValidator.extract_transaction_date`. -/
def extract_transaction_date (headers : List String) (row : RowData) : Option PyDate :=
  if row.isEmpty then none
  else
    match extractDateFromCols headers row (date_columns headers) with
    | some d => some d
    | none => extractDateFallback row

/-! ### Amount parsing (`_parse_amount_value`, `extract_amount`) -/

/-- The characters removed by the `.replace` chain:
`","`, `"$"`, `"£"`, `"€"`. -/
def currencyChars : List Char := [',', '$', '£', '€']

/-- The `.replace(",", "").replace("$", "").replace("£", "").replace("€", "")` chain. -/
def stripCurrency (l : List Char) : List Char :=
  l.filter (fun c => !(currencyChars.contains c))

/-- Models `re.sub(r"[^0-9\.-]", "", ...)`. -/
def keepAmountChars (l : List Char) : List Char :=
  l.filter (fun c => c.isDigit || c = '.' || c = '-')

/-- The full cleaning pipeline applied to the (possibly
parenthesis-stripped) value string. -/
def cleanAmount (l : List Char) : List Char := keepAmountChars (stripCurrency l)

/-- The cleaned strings rejected before `float()`: `"", "-", ".", "-."`. -/
def rejectedClean : List (List Char) := [[], ['-'], ['.'], ['-', '.']]

/-- Models `value_str.startswith("(") and value_str.endswith(")")` detection and
removal, with the negativity flag. -/
def parenStrip (l : List Char) : Bool × List Char :=
  if l.head? = some '(' && l.getLast? = some ')' then (true, (l.drop 1).dropLast)
  else (false, l)

/-- The unsigned part of Python `float()` parsing over the
post-cleaning alphabet: digits with at most one `.` and at least one
digit; any interior `-` is a parse error. -/
def parseFloatCleanBody (neg : Bool) (body : List Char) : Option ℚ :=
  if body.contains '-' then none
  else
    match splitOnChar '.' body with
    | [ip] =>
      if ip ≠ [] && ip.all Char.isDigit then
        some (if neg then -(digitsToNat ip : ℚ) else (digitsToNat ip : ℚ))
      else none
    | [ip, fr] =>
      if (ip ++ fr) ≠ [] && (ip ++ fr).all Char.isDigit then
        some (if neg
          then -((digitsToNat ip : ℚ) + (digitsToNat fr : ℚ) / (10 : ℚ) ^ fr.length)
          else (digitsToNat ip : ℚ) + (digitsToNat fr : ℚ) / (10 : ℚ) ^ fr.length)
      else none
    | _ => none

/-- Python `float()` on a string over the post-cleaning alphabet
(digits, `.`, `-`), returning the exact rational value it denotes. -/
def parseFloatClean (l : List Char) : Option ℚ :=
  if l.head? = some '-' then parseFloatCleanBody true l.tail
  else parseFloatCleanBody false l

/-- Models `if is_negative: amount = -abs(amount)` (parenthesis negativity). -/
def parenStep (neg : Bool) (a : ℚ) : ℚ := if neg then -|a| else a

/-- Models `if "credit" in key_lower and "debit" not in key_lower: amount = -abs(amount)`. -/
def creditStep (key : String) (a : ℚ) : ℚ :=
  if strContains (strLower key) "credit" && !(strContains (strLower key) "debit")
  then -|a| else a

/-- Models `if "debit" in key_lower and amount < 0: amount = abs(amount)`. -/
def debitStep (key : String) (a : ℚ) : ℚ :=
  if strContains (strLower key) "debit" && decide (a < 0) then |a| else a

/-- Models `CSVRowValidator._parse_amount_value` on the already-stripped cell
characters `valueChars` with column name `key`. -/
def parse_amount_value (valueChars : List Char) (key : String) : Option ℚ :=
  if valueChars = [] then none
  else if rejectedClean.contains (cleanAmount (parenStrip valueChars).2) then none
  else
    match parseFloatClean (cleanAmount (parenStrip valueChars).2) with
    | none => none
    | some a0 =>
      some (debitStep key (creditStep key (parenStep (parenStrip valueChars).1 a0)))

/-- The loop over `self.amount_columns` in `extract_amount`. -/
def extractAmountFromCols (headers : List String) (row : RowData) : List Nat → Option ℚ
  | [] => none
  | i :: rest =>
    match headers.get? i with
    | none => extractAmountFromCols headers row rest
    | some key =>
      match rowGet row key with
      | none => extractAmountFromCols headers row rest
      | some v =>
        if v = "" then extractAmountFromCols headers row rest
        else
          match parse_amount_value (trimChars v.data) key with
          | some a => some a
          | none => extractAmountFromCols headers row rest

/-- The fallback scan over a key list (`for key in search_keys`). -/
def scanAmountKeys (row : RowData) : List String → Option ℚ
  | [] => none
  | key :: rest =>
    match rowGet row key with
    | none => scanAmountKeys row rest
    | some v =>
      if v = "" then scanAmountKeys row rest
      else
        match parse_amount_value (trimChars v.data) key with
        | some a => some a
        | none => scanAmountKeys row rest

/-- Models `CSVRowValidator.extract_amount`: classified columns first, then the
keyword-key scan, the full-key scan being used only when no key
contains an amount keyword. -/
def extract_amount (headers : List String) (row : RowData) : Option ℚ :=
  if row.isEmpty then none
  else
    match extractAmountFromCols headers row (amount_columns headers) with
    | some a => some a
    | none =>
      let candidateKeys := (row.map Prod.fst).filter (fun k => isAmountHeader k)
      scanAmountKeys row (if candidateKeys.isEmpty then row.map Prod.fst else candidateKeys)

/-! ### Description check and row validity -/

/-- Models `str(value).strip() if value else ""` for a looked-up cell. -/
def descValueAt (row : RowData) (key : String) : String :=
  let value := (rowGet row key).getD ""
  if value = "" then "" else String.mk (trimChars value.data)

/-- The loop over `self.description_columns` in `has_description`. -/
def hasDescFromCols (headers : List String) (row : RowData) : List Nat → Bool
  | [] => false
  | i :: rest =>
    match headers.get? i with
    | none => hasDescFromCols headers row rest
    | some key =>
      if descValueAt row key ≠ "" then true else hasDescFromCols headers row rest

/-- The fallback loop over all non-date, non-amount-keyword row items
(the source inlines the same substring checks used at classification
time; `isDateHeader` and `isAmountHeader` are those checks). -/
def hasDescFallback : RowData → Bool
  | [] => false
  | (key, value) :: rest =>
    if isDateHeader key then hasDescFallback rest
    else if isAmountHeader key then hasDescFallback rest
    else if (if value = "" then "" else String.mk (trimChars value.data)) ≠ "" then true
    else hasDescFallback rest

/-- Models `CSVRowValidator.has_description`. -/
def has_description (headers : List String) (row : RowData) : Bool :=
  hasDescFromCols headers row (description_columns headers) || hasDescFallback row

/-- Models `CSVRowValidator.is_row_valid`: date, amount and description all
present (the debug prints are side effects with no bearing on the
result). -/
def is_row_valid (headers : List String) (row : RowData) : Bool :=
  if row.isEmpty then false
  else (extract_transaction_date headers row).isSome
    && (extract_amount headers row).isSome
    && has_description headers row

/-- The row's own keys, as `list(row_data.keys())`. -/
def rowHeaders (row : RowData) : List String := row.map Prod.fst

/-- Legacy module-level `extract_transaction_date`: a throwaway validator
built from the row's own keys. -/
def extract_transaction_date_dict (row : RowData) : Option PyDate :=
  extract_transaction_date (rowHeaders row) row

/-- Legacy module-level `extract_amount`. -/
def extract_amount_dict (row : RowData) : Option ℚ :=
  extract_amount (rowHeaders row) row

/-! ### MD5 (`hashlib.md5(...).hexdigest()`)

Machine words are `Nat` with explicit masking modulo `2 ^ 32`. -/

def w32 : Nat := 4294967296

def mask32 : Nat := 4294967295

/-- Left rotation on a 32-bit word. -/
def rotl32 (x n : Nat) : Nat :=
  ((x <<< n) &&& mask32) ||| (x >>> (32 - n))

/-- The 64 MD5 sine-derived constants. -/
def md5K : List Nat :=
  [3614090360, 3905402710, 606105819, 3250441966, 4118548399, 1200080426,
   2821735955, 4249261313, 1770035416, 2336552879, 4294925233, 2304563134,
   1804603682, 4254626195, 2792965006, 1236535329, 4129170786, 3225465664,
   643717713, 3921069994, 3593408605, 38016083, 3634488961, 3889429448,
   568446438, 3275163606, 4107603335, 1163531501, 2850285829, 4243563512,
   1735328473, 2368359562, 4294588738, 2272392833, 1839030562, 4259657740,
   2763975236, 1272893353, 4139469664, 3200236656, 681279174, 3936430074,
   3572445317, 76029189, 3654602809, 3873151461, 530742520, 3299628645,
   4096336452, 1126891415, 2878612391, 4237533241, 1700485571, 2399980690,
   4293915773, 2240044497, 1873313359, 4264355552, 2734768916, 1309151649,
   4149444226, 3174756917, 718787259, 3951481745]

/-- The 64 per-round rotation amounts. -/
def md5S : List Nat :=
  [7, 12, 17, 22, 7, 12, 17, 22, 7, 12, 17, 22, 7, 12, 17, 22,
   5, 9, 14, 20, 5, 9, 14, 20, 5, 9, 14, 20, 5, 9, 14, 20,
   4, 11, 16, 23, 4, 11, 16, 23, 4, 11, 16, 23, 4, 11, 16, 23,
   6, 10, 15, 21, 6, 10, 15, 21, 6, 10, 15, 21, 6, 10, 15, 21]

/-- MD5 padding: `0x80`, zeros to 56 mod 64, then the bit length as
eight little-endian bytes. -/
def md5Pad (msg : List Nat) : List Nat :=
  msg ++ [128] ++ List.replicate ((119 - msg.length % 64) % 64) 0
    ++ (List.range 8).map (fun i => ((msg.length * 8) % 2 ^ 64) >>> (8 * i) % 256)

/-- Word `g` of a 64-byte chunk, little-endian. -/
def chunkWord (chunk : List Nat) (g : Nat) : Nat :=
  chunk.getD (4 * g) 0 + 256 * chunk.getD (4 * g + 1) 0
    + 65536 * chunk.getD (4 * g + 2) 0 + 16777216 * chunk.getD (4 * g + 3) 0

/-- One of the 64 MD5 rounds. -/
def md5Round (chunk : List Nat) (st : Nat × Nat × Nat × Nat) (i : Nat) :
    Nat × Nat × Nat × Nat :=
  let a := st.1
  let b := st.2.1
  let c := st.2.2.1
  let d := st.2.2.2
  let fg : Nat × Nat :=
    if i < 16 then ((b &&& c) ||| ((b ^^^ mask32) &&& d), i)
    else if i < 32 then ((d &&& b) ||| ((d ^^^ mask32) &&& c), (5 * i + 1) % 16)
    else if i < 48 then (b ^^^ c ^^^ d, (3 * i + 5) % 16)
    else (c ^^^ (b ||| (d ^^^ mask32)), (7 * i) % 16)
  let f1 := (fg.1 + a + md5K.getD i 0 + chunkWord chunk fg.2) % w32
  (d, (b + rotl32 f1 (md5S.getD i 0)) % w32, b, c)

/-- Process one 64-byte chunk. -/
def md5Chunk (st : Nat × Nat × Nat × Nat) (chunk : List Nat) :
    Nat × Nat × Nat × Nat :=
  let r := (List.range 64).foldl (md5Round chunk) st
  ((st.1 + r.1) % w32, (st.2.1 + r.2.1) % w32,
   (st.2.2.1 + r.2.2.1) % w32, (st.2.2.2 + r.2.2.2) % w32)

/-- Split a byte list into 64-byte chunks. -/
def chunks64 (l : List Nat) : List (List Nat) :=
  if l = [] then []
  else l.take 64 :: chunks64 (l.drop 64)
termination_by l.length
decreasing_by
  cases l with
  | nil => simp at *
  | cons a t => simp [List.length_drop]; omega

/-- The four MD5 state words after absorbing a byte message. -/
def md5Words (msg : List Nat) : Nat × Nat × Nat × Nat :=
  (chunks64 (md5Pad msg)).foldl md5Chunk (1732584193, 4023233417, 2562383102, 271733878)

/-- UTF-8 encoding of one character as bytes. -/
def utf8Encode (c : Char) : List Nat :=
  let n := c.toNat
  if n < 128 then [n]
  else if n < 2048 then [192 + n / 64, 128 + n % 64]
  else if n < 65536 then [224 + n / 4096, 128 + n / 64 % 64, 128 + n % 64]
  else [240 + n / 262144, 128 + n / 4096 % 64, 128 + n / 64 % 64, 128 + n % 64]

/-- Models `s.encode("utf-8")` as a byte list. -/
def strBytes (s : String) : List Nat := s.data.flatMap utf8Encode

def hexChars : List Char := "0123456789abcdef".data

def hexDigit (n : Nat) : Char := hexChars.getD n '0'

/-- Models `"%02x"` of one byte. -/
def hexByte (b : Nat) : List Char := [hexDigit (b / 16), hexDigit (b % 16)]

/-- The four state words as the 16 digest bytes, little-endian per word. -/
def digestBytes (st : Nat × Nat × Nat × Nat) : List Nat :=
  [st.1 % 256, st.1 / 256 % 256, st.1 / 65536 % 256, st.1 / 16777216 % 256,
   st.2.1 % 256, st.2.1 / 256 % 256, st.2.1 / 65536 % 256, st.2.1 / 16777216 % 256,
   st.2.2.1 % 256, st.2.2.1 / 256 % 256, st.2.2.1 / 65536 % 256, st.2.2.1 / 16777216 % 256,
   st.2.2.2 % 256, st.2.2.2 / 256 % 256, st.2.2.2 / 65536 % 256, st.2.2.2 / 16777216 % 256]

/-- Models `hashlib.md5(s.encode("utf-8")).hexdigest()`. -/
def md5_hexdigest (s : String) : String :=
  String.mk ((digestBytes (md5Words (strBytes s))).flatMap hexByte)

/-! ### Fingerprint and row matching (`main.py`) -/

/-- Models `normalize_value`: `value.lower().strip()`. -/
def normalize_value (v : String) : String := String.mk (trimChars (strLower v).data)

/-- The description picked for fingerprinting: the first row value whose
key is neither date-like nor amount-keyword-like and whose value is
truthy with a non-empty strip, itself stripped. -/
def fingerprintDescription : RowData → String
  | [] => ""
  | (key, value) :: rest =>
    if isDateHeader key then fingerprintDescription rest
    else if isAmountHeader key then fingerprintDescription rest
    else if value ≠ "" && String.mk (trimChars value.data) ≠ "" then
      String.mk (trimChars value.data)
    else fingerprintDescription rest

/-- Two-digit zero padding. -/
def pad2 (n : Nat) : String := if n < 10 then "0" ++ toString n else toString n

/-- Models `date.strftime("%Y-%m-%d")` (glibc leaves years below 1000 unpadded). -/
def formatDateISO (d : PyDate) : String :=
  toString d.year ++ "-" ++ pad2 d.month ++ "-" ++ pad2 d.day

/-- Round half to even on an exact rational. -/
def roundHalfEven (x : ℚ) : ℤ :=
  if x - x.floor < 1 / 2 then x.floor
  else if 1 / 2 < x - x.floor then x.floor + 1
  else if x.floor % 2 = 0 then x.floor else x.floor + 1

/-- Models `f"{amount:.2f}"` on the exact rational value (round half to even;
the sign comes from the value itself, so `-0.001` prints `-0.00`). -/
def formatAmount2 (a : ℚ) : String :=
  (if a < 0 then "-" else "")
    ++ toString ((roundHalfEven (a * 100)).natAbs / 100) ++ "."
    ++ pad2 ((roundHalfEven (a * 100)).natAbs % 100)

/-- The `(date_str, amount_str, desc_str)` triple of
`generate_row_fingerprint`. -/
def fingerprintTriple (row : RowData) : String × String × String :=
  (match extract_transaction_date_dict row with
   | some d => formatDateISO d
   | none => "",
   match extract_amount_dict row with
   | some a => formatAmount2 a
   | none => "",
   if fingerprintDescription row ≠ "" then normalize_value (fingerprintDescription row) else "")

/-- The pre-hash string `f"{date_str}|{amount_str}|{desc_str}"`. -/
def fingerprint_str (row : RowData) : String :=
  (fingerprintTriple row).1 ++ "|" ++ (fingerprintTriple row).2.1 ++ "|"
    ++ (fingerprintTriple row).2.2

/-- Models `generate_row_fingerprint`. -/
def generate_row_fingerprint (row : RowData) : String :=
  md5_hexdigest (fingerprint_str row)

/-- Models `{k: normalize_value(v) for k, v in row.items()}`. -/
def normalizeRow (row : RowData) : RowData :=
  row.map (fun kv => (kv.1, normalize_value kv.2))

/-- Models `set(normalized1.keys()) == set(normalized2.keys())`. -/
def keySetEq (r1 r2 : RowData) : Bool :=
  (r1.map Prod.fst).all (fun k => (r2.map Prod.fst).contains k)
    && (r2.map Prod.fst).all (fun k => (r1.map Prod.fst).contains k)

/-- The exact-field fallback comparison in `rows_match` (key sets equal
and every normalized value equal; under key-set equality every lookup
is present, so option equality coincides with value equality). -/
def fallbackMatch (r1 r2 : RowData) : Bool :=
  keySetEq (normalizeRow r1) (normalizeRow r2)
    && ((normalizeRow r1).map Prod.fst).all
      (fun k => (normalizeRow r1).lookup k == (normalizeRow r2).lookup k)

/-- Models `rows_match`: fingerprint equality guarded by non-emptiness, then
the fallback comparison. -/
def rows_match (r1 r2 : RowData) : Bool :=
  if generate_row_fingerprint r1 == generate_row_fingerprint r2
      && !(generate_row_fingerprint r1 == "") then true
  else fallbackMatch r1 r2

/-- Models `rows_match` with the (always-true) non-emptiness guard removed. -/
def rows_match_noguard (r1 r2 : RowData) : Bool :=
  generate_row_fingerprint r1 == generate_row_fingerprint r2 || fallbackMatch r1 r2

/-! ### Merge (`merge_mappings_for_file`) -/

/-- The persisted unit (`RowMapping` of the spec): `row_index`,
`original_data`, `category`, `mapped`, `source_file`. -/
structure RowMapping where
  row_index : Nat := 0
  original_data : RowData
  category : Option String := none
  mapped : Bool := false
  source_file : Option String := none
deriving DecidableEq, Repr

/-- Models `seen_fingerprints` after the first loop: every new row's
fingerprint, each added under the (always-true) `if fingerprint:` guard. -/
def seenFingerprints (newRows : List RowMapping) : List String :=
  newRows.foldl (fun s r =>
    if !(generate_row_fingerprint r.original_data == "")
    then generate_row_fingerprint r.original_data :: s else s) []

/-- The second loop: append each existing row whose fingerprint is
truthy and unseen, updating `seen_fingerprints`. -/
def appendUnseenExisting (seen : List String) : List RowMapping → List RowMapping
  | [] => []
  | r :: rest =>
    if !(generate_row_fingerprint r.original_data == "")
        && !(seen.contains (generate_row_fingerprint r.original_data))
    then r :: appendUnseenExisting (generate_row_fingerprint r.original_data :: seen) rest
    else appendUnseenExisting seen rest

/-- Models `merge_mappings_for_file`, returning the `final_rows` list that
`save_mappings_for_file` persists for `filename` (the
fingerprint-to-row dictionaries the source also builds are dead code
that never influence `final_rows`). -/
def merge_mappings_for_file (filename : String)
    (newRows existingRows : List RowMapping) : List RowMapping :=
  if existingRows.isEmpty then newRows
  else newRows ++ appendUnseenExisting (seenFingerprints newRows) existingRows

/-- Models `seen_fingerprints` with the guard removed. -/
def seenFingerprintsNG (newRows : List RowMapping) : List String :=
  newRows.foldl (fun s r => generate_row_fingerprint r.original_data :: s) []

/-- The append loop with the non-emptiness guard removed. -/
def appendUnseenExistingNG (seen : List String) : List RowMapping → List RowMapping
  | [] => []
  | r :: rest =>
    if !(seen.contains (generate_row_fingerprint r.original_data))
    then r :: appendUnseenExistingNG (generate_row_fingerprint r.original_data :: seen) rest
    else appendUnseenExistingNG seen rest

/-- Models `merge_mappings_for_file` with both non-emptiness guards removed. -/
def merge_mappings_for_file_noguard (filename : String)
    (newRows existingRows : List RowMapping) : List RowMapping :=
  if existingRows.isEmpty then newRows
  else newRows ++ appendUnseenExistingNG (seenFingerprintsNG newRows) existingRows

/-! ### The claimed amount-string grammar
`sign? symbol? digits (',' digits)* ('.' digits)?` -/

/-- An amount string of the shape
`sign? symbol? digits (',' digits)* ('.' digits)?`: optional sign
(`some true` is `-`, `some false` is `+`), optional currency symbol,
leading digit group, comma-separated further digit groups, optional
fractional digits. -/
structure AmountLit where
  sign : Option Bool
  symbol : Option Char
  headGroup : List Char
  groups : List (List Char)
  frac : Option (List Char)

/-- Well-formedness of the shape: digit groups non-empty and numeric,
the symbol one of the three handled currency symbols. -/
def amountLitWF (t : AmountLit) : Bool :=
  t.headGroup ≠ [] && t.headGroup.all Char.isDigit
    && t.groups.all (fun g => g ≠ [] && g.all Char.isDigit)
    && (match t.symbol with
        | none => true
        | some c => c = '$' || c = '£' || c = '€')
    && (match t.frac with
        | none => true
        | some f2 => f2 ≠ [] && f2.all Char.isDigit)

/-- The rendered `sign?` part. -/
def signChunk (s : Option Bool) : List Char :=
  match s with
  | some true => ['-']
  | some false => ['+']
  | none => []

/-- The rendered `symbol?` part. -/
def symbolChunk (s : Option Char) : List Char :=
  match s with
  | some c => [c]
  | none => []

/-- The rendered `('.' digits)?` part. -/
def fracChunk (fr : Option (List Char)) : List Char :=
  match fr with
  | some f2 => '.' :: f2
  | none => []

/-- The character string the shape denotes. -/
def renderAmountLit (t : AmountLit) : List Char :=
  signChunk t.sign ++ symbolChunk t.symbol ++ t.headGroup
    ++ t.groups.flatMap (fun g => ',' :: g) ++ fracChunk t.frac

/-- All the digits of the integer part, commas removed. -/
def amountLitDigits (t : AmountLit) : List Char :=
  t.headGroup ++ t.groups.flatMap id

/-- The value of the `('.' digits)?` part. -/
def fracValue (fr : Option (List Char)) : ℚ :=
  match fr with
  | some f2 => (digitsToNat f2 : ℚ) / (10 : ℚ) ^ f2.length
  | none => 0

/-- The magnitude the string denotes. -/
def amountLitMag (t : AmountLit) : ℚ :=
  (digitsToNat (amountLitDigits t) : ℚ) + fracValue t.frac

/-- The signed numeric value the string denotes. -/
def amountLitValue (t : AmountLit) : ℚ :=
  if t.sign = some true then -(amountLitMag t) else amountLitMag t

/-! ## Lemmas about the digest shape -/

theorem flatMap_hexByte_length (l : List Nat) :
    (l.flatMap hexByte).length = 2 * l.length := by
  induction l with
  | nil => simp
  | cons a t ih => simp [List.flatMap_cons, hexByte, ih]; ring

theorem digestBytes_length (st : Nat × Nat × Nat × Nat) :
    (digestBytes st).length = 16 := rfl

theorem md5_hexdigest_length (s : String) : (md5_hexdigest s).length = 32 := by
  show ((digestBytes (md5Words (strBytes s))).flatMap hexByte).length = 32
  rw [flatMap_hexByte_length, digestBytes_length]

theorem hexDigit_mem (n : Nat) : hexDigit n ∈ hexChars := by
  unfold hexDigit
  by_cases h : n < hexChars.length
  · rw [List.getD_eq_getElem _ _ h]
    exact List.getElem_mem h
  · rw [List.getD_eq_default _ _ (le_of_not_lt h)]
    decide

theorem md5_hexdigest_chars (s : String) :
    ∀ c ∈ (md5_hexdigest s).data, c ∈ hexChars := by
  intro c hc
  have hc' : c ∈ (digestBytes (md5Words (strBytes s))).flatMap hexByte := hc
  rw [List.mem_flatMap] at hc'
  obtain ⟨b, _, hb⟩ := hc'
  simp only [hexByte, List.mem_cons, List.mem_singleton] at hb
  rcases hb with h | h | h
  · exact h ▸ hexDigit_mem _
  · exact h ▸ hexDigit_mem _
  · exact absurd h (List.not_mem_nil c)

theorem md5_hexdigest_ne_empty (s : String) : md5_hexdigest s ≠ "" := by
  intro h
  have hl := md5_hexdigest_length s
  rw [h] at hl
  simp [String.length] at hl

theorem fingerprint_length (row : RowData) :
    (generate_row_fingerprint row).length = 32 :=
  md5_hexdigest_length _

theorem fingerprint_ne_empty (row : RowData) :
    generate_row_fingerprint row ≠ "" :=
  md5_hexdigest_ne_empty _

theorem fingerprint_beq_empty_false (row : RowData) :
    (generate_row_fingerprint row == "") = false :=
  beq_eq_false_iff_ne.mpr (fingerprint_ne_empty row)

theorem seenFingerprints_foldl_eq (R : List RowMapping) (acc : List String) :
    R.foldl (fun s r =>
      if !(generate_row_fingerprint r.original_data == "")
      then generate_row_fingerprint r.original_data :: s else s) acc
      = R.foldl (fun s r => generate_row_fingerprint r.original_data :: s) acc := by
  simp only [fingerprint_beq_empty_false, Bool.not_false, if_true]

theorem seenFingerprints_eq_noguard (R : List RowMapping) :
    seenFingerprints R = seenFingerprintsNG R :=
  seenFingerprints_foldl_eq R []

theorem appendUnseenExisting_eq_noguard (E : List RowMapping) (seen : List String) :
    appendUnseenExisting seen E = appendUnseenExistingNG seen E := by
  induction E generalizing seen with
  | nil => rfl
  | cons r rest ih =>
    simp only [appendUnseenExisting, appendUnseenExistingNG,
      fingerprint_beq_empty_false, Bool.not_false, Bool.true_and]
    by_cases h : seen.contains (generate_row_fingerprint r.original_data)
    · simp [h, ih]
    · simp [h, ih]

/-- C10: every row fingerprint is a non-empty 32-character hexadecimal
MD5 digest (the fully empty row hashes the empty triple `"||"`), so the
falsy-fingerprint guards in `rows_match` and in the merge loops are
never taken: both functions coincide with their guard-free variants. -/
theorem c10_fingerprint_always_nonempty :
    (∀ row : RowData, (generate_row_fingerprint row).length = 32
      ∧ generate_row_fingerprint row ≠ ""
      ∧ ∀ c ∈ (generate_row_fingerprint row).data, c ∈ hexChars)
    ∧ generate_row_fingerprint [] = md5_hexdigest "||"
    ∧ (∀ (fn : String) (newRows existingRows : List RowMapping),
        merge_mappings_for_file fn newRows existingRows
          = merge_mappings_for_file_noguard fn newRows existingRows)
    ∧ (∀ r1 r2 : RowData, rows_match r1 r2 = rows_match_noguard r1 r2) := by
  refine ⟨fun row => ⟨fingerprint_length row, fingerprint_ne_empty row,
    md5_hexdigest_chars _⟩, ?_, ?_, ?_⟩
  · exact congrArg md5_hexdigest (by decide)
  · intro fn newRows existingRows
    unfold merge_mappings_for_file merge_mappings_for_file_noguard
    rw [seenFingerprints_eq_noguard, appendUnseenExisting_eq_noguard]
  · intro r1 r2
    unfold rows_match rows_match_noguard
    by_cases h : generate_row_fingerprint r1 == generate_row_fingerprint r2
    · simp [h, fingerprint_beq_empty_false]
    · simp [h]

/-- Witness for C10 at a concrete row. -/
theorem c10_witness :
    (generate_row_fingerprint [("k", "v")]).length = 32
      ∧ generate_row_fingerprint [("k", "v")] ≠ "" :=
  ⟨(c10_fingerprint_always_nonempty.1 [("k", "v")]).1,
   (c10_fingerprint_always_nonempty.1 [("k", "v")]).2.1⟩

/-! ## Lemmas about the merge loops -/

theorem seenFingerprintsNG_foldl (R : List RowMapping) (acc : List String) :
    R.foldl (fun s r => generate_row_fingerprint r.original_data :: s) acc
      = (R.map fun r => generate_row_fingerprint r.original_data).reverse ++ acc := by
  induction R generalizing acc with
  | nil => simp
  | cons r rest ih =>
    simp [List.foldl_cons, ih, List.append_assoc]

theorem mem_seenFingerprints_iff (R : List RowMapping) (x : String) :
    x ∈ seenFingerprints R
      ↔ x ∈ R.map fun r => generate_row_fingerprint r.original_data := by
  rw [seenFingerprints_eq_noguard]
  unfold seenFingerprintsNG
  rw [seenFingerprintsNG_foldl]
  simp

theorem appendUnseenExisting_nil_of_seen (E : List RowMapping) (seen : List String)
    (h : ∀ r ∈ E, generate_row_fingerprint r.original_data ∈ seen) :
    appendUnseenExisting seen E = [] := by
  induction E generalizing seen with
  | nil => rfl
  | cons r rest ih =>
    have hr := h r (List.mem_cons_self r rest)
    simp only [appendUnseenExisting]
    rw [if_neg]
    · exact ih seen (fun r' hr' => h r' (List.mem_cons_of_mem r hr'))
    · simp [hr]

theorem appendUnseenExisting_eq_filter (E : List RowMapping) (seen : List String)
    (h : (E.map fun r => generate_row_fingerprint r.original_data).Nodup) :
    appendUnseenExisting seen E
      = E.filter (fun r => !(seen.contains (generate_row_fingerprint r.original_data))) := by
  induction E generalizing seen with
  | nil => rfl
  | cons r rest ih =>
    rw [List.map_cons, List.nodup_cons] at h
    by_cases hc : generate_row_fingerprint r.original_data ∈ seen
    · simp only [appendUnseenExisting]
      rw [if_neg (by simp [hc]), List.filter_cons, if_neg (by simp [hc])]
      exact ih seen h.2
    · simp only [appendUnseenExisting]
      rw [if_pos (by simp [hc, fingerprint_beq_empty_false]), List.filter_cons,
        if_pos (by simp [hc])]
      rw [ih _ h.2]
      congr 1
      apply List.filter_congr
      intro x hx
      have hne : generate_row_fingerprint x.original_data
          ≠ generate_row_fingerprint r.original_data := by
        intro he
        exact h.1 (he ▸ List.mem_map_of_mem _ hx)
      simp [List.contains_cons, hne, Ne.symm hne]

/-- C1 (amended): merging a row list with itself persists exactly that
list; and when the existing rows have pairwise-distinct fingerprints,
merging a subset `S` against `R` persists `S` in order followed by every
row of `R` whose fingerprint is not among the fingerprints of `S`,
appended unchanged. -/
theorem c1_merge_idempotent_preserving :
    (∀ (fn : String) (R : List RowMapping), merge_mappings_for_file fn R R = R)
    ∧ (∀ (fn : String) (S R : List RowMapping),
        (R.map fun r => generate_row_fingerprint r.original_data).Nodup →
        S.Sublist R →
        merge_mappings_for_file fn S R
          = S ++ R.filter (fun r =>
              !((S.map fun r' => generate_row_fingerprint r'.original_data).contains
                (generate_row_fingerprint r.original_data)))) := by
  constructor
  · intro fn R
    unfold merge_mappings_for_file
    by_cases hR : R.isEmpty
    · simp [hR]
    · rw [if_neg hR, appendUnseenExisting_nil_of_seen, List.append_nil]
      intro r hr
      exact (mem_seenFingerprints_iff R _).mpr (List.mem_map_of_mem _ hr)
  · intro fn S R hnd hsub
    unfold merge_mappings_for_file
    by_cases hR : R.isEmpty
    · rw [List.isEmpty_iff] at hR
      subst hR
      have hS : S = [] := List.sublist_nil.mp hsub
      subst hS
      simp
    · rw [if_neg hR, appendUnseenExisting_eq_filter R _ hnd]
      congr 1
      apply List.filter_congr
      intro x _
      have hmem : generate_row_fingerprint x.original_data ∈ seenFingerprints S
          ↔ generate_row_fingerprint x.original_data
            ∈ S.map fun r' => generate_row_fingerprint r'.original_data :=
        mem_seenFingerprints_iff S _
      by_cases hin : generate_row_fingerprint x.original_data ∈ seenFingerprints S
      · simp [hin, hmem.mp hin]
      · simp [hin]
        intro y hy he
        exact hin (hmem.mpr (he ▸ List.mem_map_of_mem _ hy))

/-- Witness for C1 at a concrete subset/superset pair. -/
theorem c1_witness :
    merge_mappings_for_file "a.csv" []
        [⟨0, [("Memo", "Lunch")], none, false, none⟩]
      = [] ++ [(⟨0, [("Memo", "Lunch")], none, false, none⟩ : RowMapping)].filter
          (fun r => !((([] : List RowMapping).map
              fun r' => generate_row_fingerprint r'.original_data).contains
            (generate_row_fingerprint r.original_data))) :=
  c1_merge_idempotent_preserving.2 "a.csv" []
    [⟨0, [("Memo", "Lunch")], none, false, none⟩] (by simp) (by simp)

/-- Counterexample to C1 as stated: with two existing rows sharing one
fingerprint (identical `original_data`, different categories) and an
empty new upload, only the first is appended, not "every row of `R`
whose fingerprint is not among the fingerprints of `S`". -/
theorem c1_counterexample :
    merge_mappings_for_file "a.csv" []
        [⟨0, [("Memo", "Lunch")], some "Groceries", true, none⟩,
         ⟨1, [("Memo", "Lunch")], some "Dining", true, none⟩]
      = [⟨0, [("Memo", "Lunch")], some "Groceries", true, none⟩]
    ∧ merge_mappings_for_file "a.csv" []
        [⟨0, [("Memo", "Lunch")], some "Groceries", true, none⟩,
         ⟨1, [("Memo", "Lunch")], some "Dining", true, none⟩]
      ≠ [] ++ [(⟨0, [("Memo", "Lunch")], some "Groceries", true, none⟩ : RowMapping),
         ⟨1, [("Memo", "Lunch")], some "Dining", true, none⟩].filter
          (fun r => !((([] : List RowMapping).map
              fun r' => generate_row_fingerprint r'.original_data).contains
            (generate_row_fingerprint r.original_data))) := by
  have h1 : merge_mappings_for_file "a.csv" []
      [⟨0, [("Memo", "Lunch")], some "Groceries", true, none⟩,
       ⟨1, [("Memo", "Lunch")], some "Dining", true, none⟩]
      = [⟨0, [("Memo", "Lunch")], some "Groceries", true, none⟩] := by
    simp [merge_mappings_for_file, seenFingerprints, appendUnseenExisting,
      fingerprint_beq_empty_false, List.contains_cons]
  refine ⟨h1, ?_⟩
  rw [h1]
  simp

/-! ## Row matching (C2) -/

theorem string_append_cancel_left (a b c : String) (h : a ++ b = a ++ c) : b = c := by
  have h2 := congrArg String.data h
  simp only [String.data_append] at h2
  exact String.ext (List.append_cancel_left h2)

/-- C2 (amended): `rows_match` is fingerprint equality or the
normalized-field fallback; the non-emptiness guard is vacuous because
every fingerprint is a non-empty digest, so two rows with no
extractable fields (both hashing the empty triple `"||"`) are treated
as a fingerprint match. -/
theorem c2_rows_match_characterization :
    (∀ r1 r2 : RowData, rows_match r1 r2 = true
      ↔ (generate_row_fingerprint r1 = generate_row_fingerprint r2
          ∨ fallbackMatch r1 r2 = true))
    ∧ (∀ r1 r2 : RowData, fingerprint_str r1 = "||" → fingerprint_str r2 = "||" →
        rows_match r1 r2 = true) := by
  have hiff : ∀ r1 r2 : RowData, rows_match r1 r2 = true
      ↔ (generate_row_fingerprint r1 = generate_row_fingerprint r2
          ∨ fallbackMatch r1 r2 = true) := by
    intro r1 r2
    unfold rows_match
    by_cases h : generate_row_fingerprint r1 = generate_row_fingerprint r2
    · simp [h, fingerprint_beq_empty_false]
    · simp [h, beq_eq_false_iff_ne.mpr h]
  refine ⟨hiff, fun r1 r2 h1 h2 => ?_⟩
  exact (hiff r1 r2).mpr (Or.inl (congrArg md5_hexdigest (h1.trans h2.symm)))

/-- Witness for C2 at two concrete degenerate rows. -/
theorem c2_witness :
    fingerprint_str [("foo", "")] = "||" ∧ fingerprint_str [("bar", "")] = "||"
      ∧ rows_match [("foo", "")] [("bar", "")] = true :=
  ⟨by decide, by decide,
   c2_rows_match_characterization.2 [("foo", "")] [("bar", "")] (by decide) (by decide)⟩

/-- Counterexample to C2 as stated: two rows with no extractable date,
amount or description (distinct key sets, so the fallback fails) are
nevertheless matched, via their shared non-empty empty-triple
fingerprint. -/
theorem c2_counterexample :
    extract_transaction_date_dict [("foo", "")] = none
    ∧ extract_amount_dict [("foo", "")] = none
    ∧ fingerprintDescription [("foo", "")] = ""
    ∧ extract_transaction_date_dict [("bar", "")] = none
    ∧ extract_amount_dict [("bar", "")] = none
    ∧ fingerprintDescription [("bar", "")] = ""
    ∧ fallbackMatch [("foo", "")] [("bar", "")] = false
    ∧ rows_match [("foo", "")] [("bar", "")] = true := by
  have h : generate_row_fingerprint [("foo", "")]
      = generate_row_fingerprint [("bar", "")] :=
    congrArg md5_hexdigest (by decide)
  refine ⟨by decide, by decide, by decide, by decide, by decide, by decide, by decide, ?_⟩
  simp [rows_match, h, fingerprint_beq_empty_false]

/-! ## Fingerprint invariance (C3) -/

/-- C3 (amended): rows extracting to the same `(date, amount,
description)` triple share a fingerprint (the sense in which column
reordering and role-preserving header renaming leave it unchanged); and
with equal date and amount strings, distinct normalized descriptions
give distinct hash preimages (so the fingerprints differ whenever MD5
does not collide on them). -/
theorem c3_fingerprint_triple_invariance :
    (∀ r1 r2 : RowData, fingerprintTriple r1 = fingerprintTriple r2 →
      generate_row_fingerprint r1 = generate_row_fingerprint r2)
    ∧ (∀ r1 r2 : RowData,
        (fingerprintTriple r1).1 = (fingerprintTriple r2).1 →
        (fingerprintTriple r1).2.1 = (fingerprintTriple r2).2.1 →
        (fingerprintTriple r1).2.2 ≠ (fingerprintTriple r2).2.2 →
        fingerprint_str r1 ≠ fingerprint_str r2) := by
  constructor
  · intro r1 r2 h
    unfold generate_row_fingerprint fingerprint_str
    rw [h]
  · intro r1 r2 h1 h2 hne heq
    unfold fingerprint_str at heq
    rw [h1, h2] at heq
    apply hne
    have h3 := congrArg String.data heq
    simp only [String.data_append, List.append_assoc] at h3
    exact String.ext (List.append_cancel_left (List.append_cancel_left
      (List.append_cancel_left (List.append_cancel_left h3))))

/-- Witness for C3 at two concrete same-triple rows. -/
theorem c3_witness :
    generate_row_fingerprint [("Date", "2024-01-02"), ("Memo", "Store")]
      = generate_row_fingerprint [("Memo", "Store"), ("Date", "2024-01-02")] :=
  c3_fingerprint_triple_invariance.1 _ _ (by decide)

unseal Rat.mul Rat.add Rat.sub Rat.inv Rat.ofScientific in
/-- Counterexample to C3 as stated: equal date and amount strings and
raw descriptions differing only by case ("Store" vs "STORE") are
distinct descriptions, yet the fingerprints coincide because the
description is lower-cased before hashing. -/
theorem c3_counterexample :
    fingerprintDescription [("Date", "2024-01-02"), ("Amount", "5"), ("Memo", "Store")]
        ≠ fingerprintDescription [("Date", "2024-01-02"), ("Amount", "5"), ("Memo", "STORE")]
    ∧ (fingerprintTriple [("Date", "2024-01-02"), ("Amount", "5"), ("Memo", "Store")]).1
        = (fingerprintTriple [("Date", "2024-01-02"), ("Amount", "5"), ("Memo", "STORE")]).1
    ∧ (fingerprintTriple [("Date", "2024-01-02"), ("Amount", "5"), ("Memo", "Store")]).2.1
        = (fingerprintTriple [("Date", "2024-01-02"), ("Amount", "5"), ("Memo", "STORE")]).2.1
    ∧ generate_row_fingerprint [("Date", "2024-01-02"), ("Amount", "5"), ("Memo", "Store")]
        = generate_row_fingerprint [("Date", "2024-01-02"), ("Amount", "5"), ("Memo", "STORE")] :=
  ⟨by decide, by decide, by decide, congrArg md5_hexdigest (by decide)⟩

/-! ## Column role assignment (C4) -/

/-- C4 (amended): for every in-range header index, membership in
`date_columns` and `amount_columns` is decided independently by the
substring checks on a non-empty header (a header containing "date" and
an amount keyword belongs to both), `description_columns` holds exactly
the non-empty headers matching neither, every non-empty header belongs
to at least one set, and a description column belongs to neither of the
other two; empty headers belong to no set. -/
theorem c4_column_roles (headers : List String) (i : Nat) (hi : i < headers.length) :
    (i ∈ date_columns headers
      ↔ headers.getD i "" ≠ "" ∧ isDateHeader (headers.getD i "") = true)
    ∧ (i ∈ amount_columns headers
      ↔ headers.getD i "" ≠ "" ∧ isAmountHeader (headers.getD i "") = true)
    ∧ (i ∈ description_columns headers
      ↔ headers.getD i "" ≠ "" ∧ isDateHeader (headers.getD i "") = false
          ∧ isAmountHeader (headers.getD i "") = false)
    ∧ (headers.getD i "" ≠ "" →
        i ∈ date_columns headers ∨ i ∈ amount_columns headers
          ∨ i ∈ description_columns headers)
    ∧ (i ∈ description_columns headers →
        i ∉ date_columns headers ∧ i ∉ amount_columns headers) := by
  have hd : i ∈ date_columns headers
      ↔ headers.getD i "" ≠ "" ∧ isDateHeader (headers.getD i "") = true := by
    unfold date_columns
    rw [List.mem_filter, List.mem_range]
    simp [hi]
  have ha : i ∈ amount_columns headers
      ↔ headers.getD i "" ≠ "" ∧ isAmountHeader (headers.getD i "") = true := by
    unfold amount_columns
    rw [List.mem_filter, List.mem_range]
    simp [hi]
  have hde : i ∈ description_columns headers
      ↔ headers.getD i "" ≠ "" ∧ isDateHeader (headers.getD i "") = false
          ∧ isAmountHeader (headers.getD i "") = false := by
    unfold description_columns
    rw [List.mem_filter, List.mem_range]
    simp [hi, and_assoc]
  refine ⟨hd, ha, hde, ?_, ?_⟩
  · intro hne
    by_cases h1 : isDateHeader (headers.getD i "") = true
    · exact Or.inl (hd.mpr ⟨hne, h1⟩)
    · by_cases h2 : isAmountHeader (headers.getD i "") = true
      · exact Or.inr (Or.inl (ha.mpr ⟨hne, h2⟩))
      · exact Or.inr (Or.inr (hde.mpr
          ⟨hne, Bool.eq_false_iff.mpr h1, Bool.eq_false_iff.mpr h2⟩))
  · intro hmem
    obtain ⟨hne, h1, h2⟩ := hde.mp hmem
    constructor
    · intro hc
      rw [(hd.mp hc).2] at h1
      exact Bool.noConfusion h1
    · intro hc
      rw [(ha.mp hc).2] at h2
      exact Bool.noConfusion h2

/-- Witness for C4 at a concrete header list. -/
theorem c4_witness :
    2 < (["Date", "Amount", "Note"] : List String).length
    ∧ 2 ∈ description_columns ["Date", "Amount", "Note"] :=
  ⟨by decide,
   ((c4_column_roles ["Date", "Amount", "Note"] 2 (by decide)).2.2.1).mpr (by decide)⟩

/-- Counterexample to C4 as stated: the header "Charge Date" contains
both "date" and the amount keyword "charge" and is assigned to both
`date_columns` and `amount_columns` (no date precedence), and the empty
header is assigned to no set at all, so the three sets do not partition
the column indices. -/
theorem c4_counterexample :
    0 ∈ date_columns ["Charge Date", ""]
    ∧ 0 ∈ amount_columns ["Charge Date", ""]
    ∧ 1 ∉ date_columns ["Charge Date", ""]
    ∧ 1 ∉ amount_columns ["Charge Date", ""]
    ∧ 1 ∉ description_columns ["Charge Date", ""] := by
  exact ⟨by decide, by decide, by decide, by decide, by decide⟩

/-! ## Column-semantic sign rule (C5) -/

/-- C5: whenever `_parse_amount_value` succeeds, a column whose name
contains "credit" and not "debit" yields a value ≤ 0, and a column
whose name contains "debit" yields a value ≥ 0, regardless of the
input's own sign (parenthesis negativity included): the column-semantic
normalization is applied last. -/
theorem c5_column_sign_rule (l : List Char) (key : String) (v : ℚ)
    (h : parse_amount_value l key = some v) :
    (strContains (strLower key) "credit" = true →
      strContains (strLower key) "debit" = false → v ≤ 0)
    ∧ (strContains (strLower key) "debit" = true → 0 ≤ v) := by
  have hdebit : ∀ a : ℚ, strContains (strLower key) "debit" = true →
      0 ≤ debitStep key a := by
    intro a hd
    unfold debitStep
    by_cases ha : a < 0
    · rw [if_pos (by simp [hd, ha])]
      exact abs_nonneg _
    · rw [if_neg (by simp [ha])]
      exact le_of_not_lt ha
  have hv : ∃ a : ℚ, v = debitStep key (creditStep key a) := by
    unfold parse_amount_value at h
    split at h
    · exact absurd h (by simp)
    · split at h
      · exact absurd h (by simp)
      · split at h
        · exact absurd h (by simp)
        · rename_i a0 hfl
          rw [Option.some_inj] at h
          exact ⟨_, h.symm⟩
  obtain ⟨a, hva⟩ := hv
  subst hva
  constructor
  · intro hc hd
    rw [show creditStep key a = -|a| from by unfold creditStep; rw [if_pos (by simp [hc, hd])]]
    rw [show debitStep key (-|a|) = -|a| from by unfold debitStep; rw [if_neg (by simp [hd])]]
    exact neg_nonpos.mpr (abs_nonneg _)
  · intro hd
    exact hdebit _ hd

unseal Rat.mul Rat.add Rat.sub Rat.inv Rat.ofScientific in
/-- Witness for C5: a parenthesis-negative value in a "Credit" column
and a negative value in a "Debit" column. -/
theorem c5_witness :
    parse_amount_value "(50.00)".data "Credit" = some (-50)
    ∧ ((-50 : ℚ) ≤ 0)
    ∧ parse_amount_value "-7.5".data "Debit" = some (15 / 2)
    ∧ ((0 : ℚ) ≤ 15 / 2) :=
  ⟨by decide,
   (c5_column_sign_rule "(50.00)".data "Credit" (-50) (by decide)).1 (by decide) (by decide),
   by decide,
   (c5_column_sign_rule "-7.5".data "Debit" (15 / 2) (by decide)).2 (by decide)⟩

/-! ## Date format trial order (C6) -/

theorem tryFormats_first (fmts : List DateFormat) (c : List Char) (i : Nat)
    (f : DateFormat) (d : PyDate) (hget : fmts.get? i = some f)
    (hbefore : ((fmts.take i).all fun g => (strptimeFmt g c).isNone) = true)
    (hf : strptimeFmt f c = some d) :
    tryFormats c fmts = some d := by
  induction fmts generalizing i with
  | nil => exact absurd hget (by simp)
  | cons f0 rest ih =>
    cases i with
    | zero =>
      rw [List.get?_cons_zero, Option.some_inj] at hget
      subst hget
      unfold tryFormats
      rw [hf]
    | succ i =>
      rw [List.get?_cons_succ] at hget
      rw [List.take_succ_cons, List.all_cons, Bool.and_eq_true] at hbefore
      unfold tryFormats
      rw [Option.isNone_iff_eq_none.mp hbefore.1]
      exact ih i hget hbefore.2

theorem tryFormats_none (fmts : List DateFormat) (c : List Char)
    (hall : (fmts.all fun g => (strptimeFmt g c).isNone) = true) :
    tryFormats c fmts = none := by
  induction fmts with
  | nil => rfl
  | cons f0 rest ih =>
    rw [List.all_cons, Bool.and_eq_true] at hall
    unfold tryFormats
    rw [Option.isNone_iff_eq_none.mp hall.1]
    exact ih hall.2

/-- C6: each date candidate is tried against the ten formats strictly in
the source's order with the first success returned, the ambiguous
"01/02/2024" parses as January 2 2024 (US convention), the ISO fallback
is attempted exactly when all ten formats fail, and
`extract_transaction_date` on a single date cell reduces to this
per-candidate parse. -/
theorem c6_date_format_order :
    (∀ (c : List Char) (i : Nat) (f : DateFormat) (d : PyDate),
      dateFormats.get? i = some f →
      ((dateFormats.take i).all fun g => (strptimeFmt g c).isNone) = true →
      strptimeFmt f c = some d →
      parseDateCandidate c = some d)
    ∧ parseDateCandidate "01/02/2024".data = some ⟨2024, 1, 2⟩
    ∧ (∀ c : List Char,
        (dateFormats.all fun g => (strptimeFmt g c).isNone) = true →
        parseDateCandidate c = fromisoformat c)
    ∧ (∀ s : String, trimChars s.data ≠ [] →
        extract_transaction_date ["Date"] [("Date", s)]
          = parseDateCandidate (stripOrdinals (trimChars s.data))) := by
  refine ⟨?_, by decide, ?_, ?_⟩
  · intro c i f d hget hbefore hf
    unfold parseDateCandidate
    rw [tryFormats_first dateFormats c i f d hget hbefore hf]
  · intro c hall
    unfold parseDateCandidate
    rw [tryFormats_none dateFormats c hall]
  · intro s hne
    have hs : s ≠ "" := by
      intro h
      subst h
      exact hne rfl
    have hfb : extractDateFallback [("Date", s)]
        = parseDateCandidate (stripOrdinals (trimChars s.data)) := by
      unfold extractDateFallback
      rw [show strContains (strLower "Date") "date" = true from by decide]
      rw [if_neg (by simp), if_neg hne]
      cases hp : parseDateCandidate (stripOrdinals (trimChars s.data)) with
      | some d => rfl
      | none => rfl
    have hcols : extractDateFromCols ["Date"] [("Date", s)] [0]
        = parseDateCandidate (stripOrdinals (trimChars s.data)) := by
      unfold extractDateFromCols
      rw [show (["Date"] : List String).get? 0 = some "Date" from rfl]
      simp only [rowGet, List.lookup, beq_self_eq_true, Option.getD_some]
      rw [if_neg hs, if_neg hne]
      cases hp : parseDateCandidate (stripOrdinals (trimChars s.data)) with
      | some d => rfl
      | none => rfl
    unfold extract_transaction_date
    rw [if_neg (by simp)]
    rw [show date_columns ["Date"] = [0] from by decide]
    rw [hcols]
    cases hp : parseDateCandidate (stripOrdinals (trimChars s.data)) with
    | some d => rfl
    | none =>
      rw [hfb]
      exact hp

/-- Witness for C6: the second format fires on "01/02/2024" after the
first fails, an unparseable candidate reaches the ISO fallback, and a
padded single-cell row reduces to the per-candidate parse. -/
theorem c6_witness :
    parseDateCandidate "01/02/2024".data = some ⟨2024, 1, 2⟩
    ∧ parseDateCandidate "hello".data = fromisoformat "hello".data
    ∧ extract_transaction_date ["Date"] [("Date", " 03/04/2024 ")]
        = parseDateCandidate (stripOrdinals (trimChars " 03/04/2024 ".data)) :=
  ⟨c6_date_format_order.1 "01/02/2024".data 1 ⟨'/', .mdy, .y4⟩ ⟨2024, 1, 2⟩
     (by decide) (by decide) (by decide),
   c6_date_format_order.2.2.1 "hello".data (by decide),
   c6_date_format_order.2.2.2 " 03/04/2024 " (by decide)⟩

/-! ## Character and string helper lemmas for the amount grammar -/

theorem digit_ne_of_not_digit (c d : Char) (h : c.isDigit = true)
    (hd : d.isDigit = false) : c ≠ d := by
  intro he
  rw [he] at h
  rw [h] at hd
  exact Bool.noConfusion hd

theorem digit_not_ws (c : Char) (h : c.isDigit = true) :
    c.isWhitespace = false := by
  by_contra hw
  rw [Bool.not_eq_false] at hw
  simp only [Char.isWhitespace, Bool.or_eq_true, decide_eq_true_eq] at hw
  rcases hw with ((h1 | h1) | h1) | h1 <;> subst h1 <;> exact absurd h (by decide)

theorem dropWhile_eq_self_of_all {α : Type} (p : α → Bool) (l : List α)
    (h : ∀ c ∈ l, p c = false) : l.dropWhile p = l := by
  cases l with
  | nil => rfl
  | cons a t =>
    rw [List.dropWhile_cons, h a (List.mem_cons_self a t)]
    simp

theorem trimChars_eq_self (l : List Char) (h : ∀ c ∈ l, c.isWhitespace = false) :
    trimChars l = l := by
  unfold trimChars
  rw [dropWhile_eq_self_of_all _ _ h]
  rw [dropWhile_eq_self_of_all _ _ (fun c hc => h c (List.mem_reverse.mp hc))]
  exact List.reverse_reverse l

theorem splitOnChar_ne_nil (sep : Char) (l : List Char) : splitOnChar sep l ≠ [] := by
  cases l with
  | nil => simp [splitOnChar]
  | cons c rest =>
    unfold splitOnChar
    cases h : splitOnChar sep rest with
    | nil => simp
    | cons a t => by_cases hc : c = sep <;> simp [hc]

theorem splitOnChar_no_sep (sep : Char) (l : List Char) (h : ∀ c ∈ l, c ≠ sep) :
    splitOnChar sep l = [l] := by
  induction l with
  | nil => rfl
  | cons c rest ih =>
    unfold splitOnChar
    rw [ih (fun x hx => h x (List.mem_cons_of_mem c hx))]
    simp [h c (List.mem_cons_self c rest)]

theorem splitOnChar_append_sep (sep : Char) (l1 l2 : List Char)
    (h : ∀ c ∈ l1, c ≠ sep) :
    splitOnChar sep (l1 ++ sep :: l2) = l1 :: splitOnChar sep l2 := by
  induction l1 with
  | nil =>
    simp only [List.nil_append]
    conv_lhs => rw [splitOnChar]
    cases hs : splitOnChar sep l2 with
    | nil => exact absurd hs (splitOnChar_ne_nil sep l2)
    | cons a t => simp
  | cons c rest ih =>
    simp only [List.cons_append]
    conv_lhs => rw [splitOnChar]
    rw [ih (fun x hx => h x (List.mem_cons_of_mem c hx))]
    simp [h c (List.mem_cons_self c rest)]

theorem cleanAmount_append (l1 l2 : List Char) :
    cleanAmount (l1 ++ l2) = cleanAmount l1 ++ cleanAmount l2 := by
  simp [cleanAmount, stripCurrency, keepAmountChars, List.filter_append]

theorem digit_not_currency (c : Char) (h : c.isDigit = true) :
    currencyChars.contains c = false := by
  by_contra hc
  rw [Bool.not_eq_false] at hc
  have hm : c ∈ currencyChars := by simpa using hc
  simp only [currencyChars, List.mem_cons, List.not_mem_nil, or_false] at hm
  rcases hm with h1 | h1 | h1 | h1 <;> subst h1 <;> exact absurd h (by decide)

theorem cleanAmount_digits (l : List Char) (h : l.all Char.isDigit = true) :
    cleanAmount l = l := by
  rw [List.all_eq_true] at h
  have h1 : stripCurrency l = l :=
    List.filter_eq_self.mpr (fun a ha => by
      have hc := digit_not_currency a (h a ha)
      simpa using hc)
  have h2 : keepAmountChars l = l :=
    List.filter_eq_self.mpr (fun a ha => by simp [h a ha])
  rw [cleanAmount, h1]
  exact h2

theorem cleanAmount_comma_groups (gs : List (List Char))
    (h : ∀ g ∈ gs, g.all Char.isDigit = true) :
    cleanAmount (gs.flatMap (fun g => ',' :: g)) = gs.flatMap id := by
  induction gs with
  | nil => rfl
  | cons g rest ih =>
    rw [List.flatMap_cons, List.flatMap_cons, cleanAmount_append]
    rw [show cleanAmount (',' :: g) = cleanAmount g from by
      simp [cleanAmount, stripCurrency, keepAmountChars, currencyChars]]
    rw [cleanAmount_digits g (h g (List.mem_cons_self g rest))]
    rw [ih (fun g' hg' => h g' (List.mem_cons_of_mem g hg'))]
    rfl

theorem contains_dash_false (l : List Char) (h : ∀ c ∈ l, c ≠ '-') :
    l.contains '-' = false := by
  by_contra hc
  rw [Bool.not_eq_false] at hc
  exact h '-' (by simpa using hc) rfl

theorem parseFloatCleanBody_int (neg : Bool) (ip : List Char) (hne : ip ≠ [])
    (hd : ip.all Char.isDigit = true) :
    parseFloatCleanBody neg ip
      = some (if neg then -(digitsToNat ip : ℚ) else (digitsToNat ip : ℚ)) := by
  have hnd : ip.contains '-' = false :=
    contains_dash_false ip (fun c hc =>
      digit_ne_of_not_digit c '-' (List.all_eq_true.mp hd c hc) (by decide))
  unfold parseFloatCleanBody
  rw [if_neg (by rw [hnd]; simp)]
  rw [splitOnChar_no_sep '.' ip (fun c hc =>
    digit_ne_of_not_digit c '.' (List.all_eq_true.mp hd c hc) (by decide))]
  simp [hne, hd]

theorem parseFloatCleanBody_frac (neg : Bool) (ip fr : List Char)
    (hdi : ip.all Char.isDigit = true) (hfne : fr ≠ [])
    (hfd : fr.all Char.isDigit = true) :
    parseFloatCleanBody neg (ip ++ '.' :: fr)
      = some (if neg
          then -((digitsToNat ip : ℚ) + (digitsToNat fr : ℚ) / (10 : ℚ) ^ fr.length)
          else (digitsToNat ip : ℚ) + (digitsToNat fr : ℚ) / (10 : ℚ) ^ fr.length) := by
  have hnd : (ip ++ '.' :: fr).contains '-' = false := by
    apply contains_dash_false
    intro c hc
    rcases List.mem_append.mp hc with hc1 | hc1
    · exact digit_ne_of_not_digit c '-' (List.all_eq_true.mp hdi c hc1) (by decide)
    · rcases List.mem_cons.mp hc1 with hc2 | hc2
      · subst hc2; decide
      · exact digit_ne_of_not_digit c '-' (List.all_eq_true.mp hfd c hc2) (by decide)
  unfold parseFloatCleanBody
  rw [if_neg (by rw [hnd]; simp)]
  rw [splitOnChar_append_sep '.' ip fr (fun c hc =>
    digit_ne_of_not_digit c '.' (List.all_eq_true.mp hdi c hc) (by decide))]
  rw [splitOnChar_no_sep '.' fr (fun c hc =>
    digit_ne_of_not_digit c '.' (List.all_eq_true.mp hfd c hc) (by decide))]
  simp [hfne, List.all_append, hdi, hfd]

theorem cleanAmount_sign (s : Option Bool) :
    cleanAmount (signChunk s) = (if s = some true then ['-'] else []) := by
  rcases s with _ | b
  · rfl
  · cases b <;> decide

theorem cleanAmount_symbol (s : Option Char)
    (h : (match s with | none => true | some c => c = '$' || c = '£' || c = '€') = true) :
    cleanAmount (symbolChunk s) = [] := by
  rcases s with _ | c
  · rfl
  · show cleanAmount [c] = []
    simp only [Bool.or_eq_true, decide_eq_true_eq] at h
    rcases h with (h1 | h1) | h1 <;> subst h1 <;> decide

theorem cleanAmount_frac (fr : Option (List Char))
    (h : (match fr with
          | none => true
          | some f2 => f2 ≠ [] && f2.all Char.isDigit) = true) :
    cleanAmount (fracChunk fr) = fracChunk fr := by
  rcases fr with _ | f2
  · rfl
  · show cleanAmount ('.' :: f2) = '.' :: f2
    simp only [Bool.and_eq_true, decide_eq_true_eq] at h
    rw [show cleanAmount ('.' :: f2) = '.' :: cleanAmount f2 from by
      simp [cleanAmount, stripCurrency, keepAmountChars, currencyChars]]
    rw [cleanAmount_digits f2 h.2]

theorem cleanAmount_render (t : AmountLit) (h : amountLitWF t = true) :
    cleanAmount (renderAmountLit t)
      = (if t.sign = some true then ['-'] else [])
        ++ (amountLitDigits t ++ fracChunk t.frac) := by
  unfold amountLitWF at h
  simp only [Bool.and_eq_true] at h
  obtain ⟨⟨⟨⟨hne, hdig⟩, hgr⟩, hsym⟩, hfr⟩ := h
  have hgroups : cleanAmount (t.groups.flatMap fun g => ',' :: g) = t.groups.flatMap id :=
    cleanAmount_comma_groups _ (fun g hgm => by
      have hgg := List.all_eq_true.mp hgr g hgm
      rw [Bool.and_eq_true] at hgg
      exact hgg.2)
  unfold renderAmountLit amountLitDigits
  rw [cleanAmount_append, cleanAmount_append, cleanAmount_append, cleanAmount_append,
    cleanAmount_sign, cleanAmount_symbol _ hsym, cleanAmount_digits _ hdig, hgroups,
    cleanAmount_frac _ hfr]
  simp [List.append_assoc]

theorem amountLitWF_parts (t : AmountLit) (h : amountLitWF t = true) :
    t.headGroup ≠ [] ∧ t.headGroup.all Char.isDigit = true
      ∧ (t.groups.all fun g => decide (g ≠ []) && g.all Char.isDigit) = true
      ∧ (match t.symbol with
         | none => true
         | some c => c = '$' || c = '£' || c = '€') = true
      ∧ (match t.frac with
         | none => true
         | some f2 => f2 ≠ [] && f2.all Char.isDigit) = true := by
  unfold amountLitWF at h
  simp only [Bool.and_eq_true] at h
  obtain ⟨⟨⟨⟨hne, hdig⟩, hgr⟩, hsym⟩, hfr⟩ := h
  exact ⟨by simpa using hne, hdig, hgr, hsym, hfr⟩

theorem amountLitDigits_ne_nil (t : AmountLit) (h : t.headGroup ≠ []) :
    amountLitDigits t ≠ [] := by
  unfold amountLitDigits
  intro hc
  exact h (List.append_eq_nil.mp hc).1

theorem amountLitDigits_all_digit (t : AmountLit) (h : amountLitWF t = true) :
    (amountLitDigits t).all Char.isDigit = true := by
  obtain ⟨_, hdig, hgr, _, _⟩ := amountLitWF_parts t h
  unfold amountLitDigits
  rw [List.all_append, hdig, Bool.true_and, List.all_eq_true]
  intro c hc
  rw [List.mem_flatMap] at hc
  obtain ⟨g, hg, hcg⟩ := hc
  have hgg := List.all_eq_true.mp hgr g hg
  rw [Bool.and_eq_true] at hgg
  exact List.all_eq_true.mp hgg.2 c hcg

theorem parseFloatClean_cleaned (t : AmountLit) (h : amountLitWF t = true) :
    parseFloatClean ((if t.sign = some true then ['-'] else [])
        ++ (amountLitDigits t ++ fracChunk t.frac))
      = some (amountLitValue t) := by
  obtain ⟨hne, _, _, _, hfr⟩ := amountLitWF_parts t h
  have hDd := amountLitDigits_all_digit t h
  have hDne := amountLitDigits_ne_nil t hne
  obtain ⟨d0, D', hD⟩ := List.exists_cons_of_ne_nil hDne
  have hbody : ∀ neg : Bool, parseFloatCleanBody neg (amountLitDigits t ++ fracChunk t.frac)
      = some (if neg then -(amountLitMag t) else amountLitMag t) := by
    intro neg
    rcases hfc : t.frac with _ | f2
    · rw [show fracChunk none = [] from rfl, List.append_nil]
      rw [parseFloatCleanBody_int neg _ hDne hDd]
      unfold amountLitMag fracValue
      rw [hfc]
      cases neg <;> simp
    · rw [hfc] at hfr
      simp only [Bool.and_eq_true, decide_eq_true_eq] at hfr
      rw [show fracChunk (some f2) = '.' :: f2 from rfl]
      rw [parseFloatCleanBody_frac neg _ f2 hDd hfr.1 hfr.2]
      unfold amountLitMag fracValue
      rw [hfc]
  by_cases hsg : t.sign = some true
  · rw [if_pos hsg, List.singleton_append]
    unfold parseFloatClean
    rw [if_pos (by simp)]
    rw [show ('-' :: (amountLitDigits t ++ fracChunk t.frac)).tail
        = amountLitDigits t ++ fracChunk t.frac from rfl]
    rw [hbody true]
    unfold amountLitValue
    rw [if_pos hsg]
    simp
  · rw [if_neg hsg, List.nil_append]
    unfold parseFloatClean
    have hh : ¬((amountLitDigits t ++ fracChunk t.frac).head? = some '-') := by
      rw [hD, List.cons_append, List.head?_cons]
      intro hcon
      rw [Option.some_inj] at hcon
      have hd0 : d0.isDigit = true :=
        List.all_eq_true.mp hDd d0 (by rw [hD]; exact List.mem_cons_self _ _)
      rw [hcon] at hd0
      exact absurd hd0 (by decide)
    rw [if_neg hh]
    rw [hbody false]
    unfold amountLitValue
    rw [if_neg hsg]
    simp

theorem renderAmountLit_ne_nil (t : AmountLit) (h : t.headGroup ≠ []) :
    renderAmountLit t ≠ [] := by
  unfold renderAmountLit
  intro hc
  rw [List.append_eq_nil, List.append_eq_nil, List.append_eq_nil, List.append_eq_nil] at hc
  exact h hc.1.1.2

theorem renderAmountLit_head_ne_paren (t : AmountLit) (h : amountLitWF t = true) :
    ¬((renderAmountLit t).head? = some '(') := by
  obtain ⟨hne, hdig, _, hsym, _⟩ := amountLitWF_parts t h
  obtain ⟨d0, D', hD⟩ := List.exists_cons_of_ne_nil hne
  unfold renderAmountLit
  rcases hsg : t.sign with _ | b
  · rcases hsy : t.symbol with _ | c
    · rw [show signChunk none = [] from rfl, show symbolChunk none = [] from rfl,
        List.nil_append, List.nil_append, hD, List.cons_append, List.cons_append,
        List.head?_cons]
      intro hcon
      rw [Option.some_inj] at hcon
      have hd0 : d0.isDigit = true :=
        List.all_eq_true.mp hdig d0 (by rw [hD]; exact List.mem_cons_self _ _)
      rw [hcon] at hd0
      exact absurd hd0 (by decide)
    · rw [show signChunk none = [] from rfl, show symbolChunk (some c) = [c] from rfl,
        List.nil_append, List.singleton_append, List.cons_append, List.cons_append,
        List.head?_cons]
      rw [hsy] at hsym
      simp only [Bool.or_eq_true, decide_eq_true_eq] at hsym
      intro hcon
      rw [Option.some_inj] at hcon
      rcases hsym with (h1 | h1) | h1 <;> rw [h1] at hcon <;> exact absurd hcon (by decide)
  · cases b
    · rw [show signChunk (some false) = ['+'] from rfl, List.singleton_append,
        List.cons_append, List.cons_append, List.cons_append, List.head?_cons]
      intro hcon
      rw [Option.some_inj] at hcon
      exact absurd hcon (by decide)
    · rw [show signChunk (some true) = ['-'] from rfl, List.singleton_append,
        List.cons_append, List.cons_append, List.cons_append, List.head?_cons]
      intro hcon
      rw [Option.some_inj] at hcon
      exact absurd hcon (by decide)

theorem parenStrip_id_of_head (l : List Char) (hh : ¬(l.head? = some '(')) :
    parenStrip l = (false, l) := by
  unfold parenStrip
  rw [if_neg (by simp [hh])]

theorem cleaned_render_not_rejected (t : AmountLit) (h : amountLitWF t = true) :
    rejectedClean.contains (cleanAmount (renderAmountLit t)) = false := by
  obtain ⟨hne, hdig, _, _, _⟩ := amountLitWF_parts t h
  obtain ⟨d0, D', hD⟩ := List.exists_cons_of_ne_nil (amountLitDigits_ne_nil t hne)
  have hd0 : d0.isDigit = true :=
    List.all_eq_true.mp (amountLitDigits_all_digit t h) d0
      (by rw [hD]; exact List.mem_cons_self _ _)
  have hmem : d0 ∈ cleanAmount (renderAmountLit t) := by
    rw [cleanAmount_render t h, hD]
    exact List.mem_append_right _ (List.mem_append_left _ (List.mem_cons_self _ _))
  by_contra hc
  rw [Bool.not_eq_false] at hc
  have hin : cleanAmount (renderAmountLit t) ∈ rejectedClean := by simpa using hc
  simp only [rejectedClean, List.mem_cons, List.not_mem_nil, or_false] at hin
  rcases hin with h1 | h1 | h1 | h1 <;> rw [h1] at hmem <;>
    simp only [List.mem_cons, List.mem_singleton, List.not_mem_nil, or_false] at hmem
  · rw [hmem] at hd0
    exact absurd hd0 (by decide)
  · rw [hmem] at hd0
    exact absurd hd0 (by decide)
  · rcases hmem with h2 | h2 <;> rw [h2] at hd0 <;> exact absurd hd0 (by decide)

theorem renderAmountLit_no_ws (t : AmountLit) (h : amountLitWF t = true) :
    ∀ c ∈ renderAmountLit t, c.isWhitespace = false := by
  obtain ⟨_, hdig, hgr, hsym, hfr⟩ := amountLitWF_parts t h
  intro c hc
  unfold renderAmountLit at hc
  rw [List.mem_append] at hc
  rcases hc with hc | hc
  · rw [List.mem_append] at hc
    rcases hc with hc | hc
    · rw [List.mem_append] at hc
      rcases hc with hc | hc
      · rw [List.mem_append] at hc
        rcases hc with hc | hc
        · rcases hsg : t.sign with _ | b
          · rw [hsg] at hc
            exact absurd hc (List.not_mem_nil c)
          · rw [hsg] at hc
            cases b <;> (simp only [signChunk, List.mem_singleton] at hc
                         · subst hc; decide)
        · rcases hsy : t.symbol with _ | c2
          · rw [hsy] at hc
            exact absurd hc (List.not_mem_nil c)
          · rw [hsy] at hc
            simp only [symbolChunk, List.mem_singleton] at hc
            subst hc
            rw [hsy] at hsym
            simp only [Bool.or_eq_true, decide_eq_true_eq] at hsym
            rcases hsym with (h1 | h1) | h1 <;> subst h1 <;> decide
      · exact digit_not_ws c (List.all_eq_true.mp hdig c hc)
    · rw [List.mem_flatMap] at hc
      obtain ⟨g, hg, hcg⟩ := hc
      rcases List.mem_cons.mp hcg with h1 | h1
      · subst h1; decide
      · have hgg := List.all_eq_true.mp hgr g hg
        rw [Bool.and_eq_true] at hgg
        exact digit_not_ws c (List.all_eq_true.mp hgg.2 c h1)
  · rcases hfc : t.frac with _ | f2
    · rw [hfc] at hc
      exact absurd hc (List.not_mem_nil c)
    · rw [hfc] at hc
      rw [hfc] at hfr
      simp only [Bool.and_eq_true, decide_eq_true_eq] at hfr
      rcases List.mem_cons.mp hc with h1 | h1
      · subst h1; decide
      · exact digit_not_ws c (List.all_eq_true.mp hfr.2 c h1)

theorem parse_amount_value_render (t : AmountLit) (h : amountLitWF t = true) :
    parse_amount_value (renderAmountLit t) "Amount" = some (amountLitValue t) := by
  obtain ⟨hne, _, _, _, _⟩ := amountLitWF_parts t h
  unfold parse_amount_value
  rw [if_neg (renderAmountLit_ne_nil t hne)]
  rw [parenStrip_id_of_head _ (renderAmountLit_head_ne_paren t h)]
  simp only []
  rw [if_neg (by rw [cleaned_render_not_rejected t h]; simp)]
  rw [cleanAmount_render t h, parseFloatClean_cleaned t h]
  show some (debitStep "Amount" (creditStep "Amount" (parenStep false (amountLitValue t))))
    = some (amountLitValue t)
  rw [show parenStep false (amountLitValue t) = amountLitValue t from rfl]
  rw [show creditStep "Amount" (amountLitValue t) = amountLitValue t from by
    unfold creditStep
    rw [if_neg (by decide)]]
  rw [show debitStep "Amount" (amountLitValue t) = amountLitValue t from by
    unfold debitStep
    rw [if_neg (by simp [show strContains (strLower "Amount") "debit" = false from by decide])]]

theorem extract_amount_render (t : AmountLit) (h : amountLitWF t = true) :
    extract_amount ["Amount"] [("Amount", String.mk (renderAmountLit t))]
      = some (amountLitValue t) := by
  obtain ⟨hne, _, _, _, _⟩ := amountLitWF_parts t h
  have hsne : String.mk (renderAmountLit t) ≠ "" := by
    intro hcon
    exact renderAmountLit_ne_nil t hne (congrArg String.data hcon)
  have htrim : trimChars (String.mk (renderAmountLit t)).data = renderAmountLit t :=
    trimChars_eq_self _ (renderAmountLit_no_ws t h)
  unfold extract_amount
  rw [if_neg (by simp)]
  rw [show amount_columns ["Amount"] = [0] from by decide]
  unfold extractAmountFromCols
  rw [show (["Amount"] : List String).get? 0 = some "Amount" from rfl]
  simp only [rowGet, List.lookup, beq_self_eq_true]
  rw [if_neg hsne]
  rw [htrim, parse_amount_value_render t h]

unseal Rat.mul Rat.add Rat.sub Rat.inv Rat.ofScientific in
/-- C7: every amount string of the grammar
`sign? symbol? digits (',' digits)* ('.' digits)?` placed in an
"Amount" column extracts to exactly the rational value it denotes;
"$1,234.56", "(50.00)" and "€10" give 1234.56, -50 and 10; a cell whose
cleaned form is empty or one of "-", ".", "-." yields no value. -/
theorem c7_amount_parsing :
    (∀ t : AmountLit, amountLitWF t = true →
      extract_amount ["Amount"] [("Amount", String.mk (renderAmountLit t))]
        = some (amountLitValue t))
    ∧ extract_amount ["Amount"] [("Amount", "$1,234.56")] = some ((123456 : ℚ) / 100)
    ∧ extract_amount ["Amount"] [("Amount", "(50.00)")] = some (-50)
    ∧ extract_amount ["Amount"] [("Amount", "€10")] = some 10
    ∧ (∀ (l : List Char) (key : String),
        rejectedClean.contains (cleanAmount (parenStrip l).2) = true →
        parse_amount_value l key = none) := by
  refine ⟨extract_amount_render, by decide, by decide, by decide, ?_⟩
  intro l key hrej
  unfold parse_amount_value
  by_cases hl : l = []
  · rw [if_pos hl]
  · rw [if_neg hl, if_pos hrej]

unseal Rat.mul Rat.add Rat.sub Rat.inv Rat.ofScientific in
/-- Witness for C7 at the literal "$1,234.56" and the rejected cell "-". -/
theorem c7_witness :
    amountLitWF ⟨none, some '$', ['1'], [['2', '3', '4']], some ['5', '6']⟩ = true
    ∧ extract_amount ["Amount"]
        [("Amount", String.mk (renderAmountLit
          ⟨none, some '$', ['1'], [['2', '3', '4']], some ['5', '6']⟩))]
        = some (amountLitValue ⟨none, some '$', ['1'], [['2', '3', '4']], some ['5', '6']⟩)
    ∧ parse_amount_value ['-'] "X" = none :=
  ⟨by decide,
   c7_amount_parsing.1 _ (by decide),
   c7_amount_parsing.2.2.2.2 ['-'] "X" (by decide)⟩

/-! ## Amount fallback chain (C8) -/

/-- C8 (amended): when no classified amount column yields a value,
`extract_amount` scans the row keys containing an amount keyword; the
scan of every row key happens only when no key contains such a keyword
(if keyword-bearing keys exist but none parses, the result is none
without a full-key scan); each scan returns the first successfully
parsed value. -/
theorem c8_amount_fallback_chain (headers : List String) (row : RowData)
    (hrow : row.isEmpty = false)
    (hcols : extractAmountFromCols headers row (amount_columns headers) = none) :
    extract_amount headers row
      = (if ((row.map Prod.fst).filter (fun k => isAmountHeader k)).isEmpty
         then scanAmountKeys row (row.map Prod.fst)
         else scanAmountKeys row ((row.map Prod.fst).filter (fun k => isAmountHeader k))) := by
  unfold extract_amount
  rw [if_neg (by rw [hrow]; simp)]
  rw [hcols]
  show scanAmountKeys row
      (if ((row.map Prod.fst).filter (fun k => isAmountHeader k)).isEmpty
       then row.map Prod.fst
       else (row.map Prod.fst).filter (fun k => isAmountHeader k)) = _
  by_cases hck : ((row.map Prod.fst).filter (fun k => isAmountHeader k)).isEmpty
  · rw [if_pos hck, if_pos hck]
  · rw [if_neg hck, if_neg hck]

/-- Witness for C8 at a row with no amount-keyword key. -/
theorem c8_witness :
    extract_amount ["X"] [("Other", "5")]
      = (if (([("Other", "5")] : RowData).map Prod.fst).filter
            (fun k => isAmountHeader k) |>.isEmpty
         then scanAmountKeys [("Other", "5")] (([("Other", "5")] : RowData).map Prod.fst)
         else scanAmountKeys [("Other", "5")]
           ((([("Other", "5")] : RowData).map Prod.fst).filter (fun k => isAmountHeader k))) :=
  c8_amount_fallback_chain ["X"] [("Other", "5")] (by decide) (by decide)

unseal Rat.mul Rat.add Rat.sub Rat.inv Rat.ofScientific in
/-- Counterexample to C8 as stated: the row has a keyword-bearing key
("Amount") whose cell "abc" does not parse, so extract_amount returns
none, even though a scan of every row key would have found 5 under
"Other". -/
theorem c8_counterexample :
    extract_amount ["Amount", "Other"] [("Amount", "abc"), ("Other", "5")] = none
    ∧ scanAmountKeys [("Amount", "abc"), ("Other", "5")] ["Amount", "Other"] = some 5 :=
  ⟨by decide, by decide⟩

/-! ## Row validity (C9) -/

theorem lookup_mem (row : RowData) (k v : String) (h : row.lookup k = some v) :
    (k, v) ∈ row := by
  induction row with
  | nil => exact absurd h (by simp)
  | cons kv rest ih =>
    obtain ⟨k1, v1⟩ := kv
    rw [List.lookup_cons] at h
    split at h
    · rename_i hbeq
      rw [Option.some_inj] at h
      rw [List.mem_cons]
      left
      rw [eq_of_beq hbeq, h]
    · exact List.mem_cons_of_mem _ (ih h)

/-- The row items that count as descriptions: non-date, non-amount key
with a non-empty stripped value. -/
def descItemOK (kv : String × String) : Prop :=
  isDateHeader kv.1 = false ∧ isAmountHeader kv.1 = false
    ∧ String.mk (trimChars kv.2.data) ≠ ""

theorem hasDescFallback_iff (row : RowData) :
    hasDescFallback row = true ↔ ∃ kv ∈ row, descItemOK kv := by
  induction row with
  | nil => simp [hasDescFallback]
  | cons kv rest ih =>
    obtain ⟨k, v⟩ := kv
    unfold hasDescFallback
    by_cases h1 : isDateHeader k = true
    · rw [if_pos h1, ih]
      constructor
      · rintro ⟨kv2, hm, hok⟩
        exact ⟨kv2, List.mem_cons_of_mem _ hm, hok⟩
      · rintro ⟨kv2, hm, hok⟩
        rcases List.mem_cons.mp hm with he | hm2
        · exfalso
          rw [he] at hok
          exact Bool.noConfusion (h1.symm.trans hok.1)
        · exact ⟨kv2, hm2, hok⟩
    · rw [if_neg h1]
      by_cases h2 : isAmountHeader k = true
      · rw [if_pos h2, ih]
        constructor
        · rintro ⟨kv2, hm, hok⟩
          exact ⟨kv2, List.mem_cons_of_mem _ hm, hok⟩
        · rintro ⟨kv2, hm, hok⟩
          rcases List.mem_cons.mp hm with he | hm2
          · exfalso
            rw [he] at hok
            exact Bool.noConfusion (h2.symm.trans hok.2.1)
          · exact ⟨kv2, hm2, hok⟩
      · rw [if_neg h2]
        by_cases h3 : (if v = "" then "" else String.mk (trimChars v.data)) ≠ ""
        · rw [if_pos h3]
          have hv : v ≠ "" := by
            intro hcon
            rw [if_pos hcon] at h3
            exact h3 rfl
          rw [if_neg hv] at h3
          simp only [true_iff]
          exact ⟨(k, v), List.mem_cons_self _ _,
            Bool.eq_false_iff.mpr h1, Bool.eq_false_iff.mpr h2, h3⟩
        · rw [if_neg h3, ih]
          constructor
          · rintro ⟨kv2, hm, hok⟩
            exact ⟨kv2, List.mem_cons_of_mem _ hm, hok⟩
          · rintro ⟨kv2, hm, hok⟩
            rcases List.mem_cons.mp hm with he | hm2
            · exfalso
              rw [not_not] at h3
              rw [he] at hok
              apply hok.2.2
              by_cases hv : v = ""
              · rw [hv]
                rfl
              · rw [if_neg hv] at h3
                exact h3
            · exact ⟨kv2, hm2, hok⟩

theorem hasDescFromCols_exists (headers : List String) (row : RowData)
    (cols : List Nat) (hcols : ∀ i ∈ cols, i ∈ description_columns headers)
    (h : hasDescFromCols headers row cols = true) :
    ∃ kv ∈ row, descItemOK kv := by
  induction cols with
  | nil => exact absurd h (by simp [hasDescFromCols])
  | cons i rest ih =>
    unfold hasDescFromCols at h
    cases hg : headers.get? i with
    | none =>
      rw [hg] at h
      exact ih (fun j hj => hcols j (List.mem_cons_of_mem i hj)) h
    | some key =>
      rw [hg] at h
      change (if descValueAt row key ≠ "" then true
              else hasDescFromCols headers row rest) = true at h
      by_cases hd : descValueAt row key ≠ ""
      · have hi := hcols i (List.mem_cons_self i rest)
        have hlt : i < headers.length := by
          by_contra hge
          rw [List.get?_eq_none.mpr (le_of_not_lt hge)] at hg
          exact Option.noConfusion hg
        have hkey : headers.getD i "" = key := by
          rw [List.getD_eq_getElem?_getD, ← List.get?_eq_getElem?, hg]
          rfl
        obtain ⟨_, _, hdc, _, _⟩ := c4_column_roles headers i hlt
        obtain ⟨hke, hkd, hka⟩ := hdc.mp hi
        unfold descValueAt at hd
        cases hv : rowGet row key with
        | none =>
          exfalso
          rw [hv] at hd
          simp at hd
        | some v =>
          rw [hv] at hd
          simp only [Option.getD_some] at hd
          have hvne : v ≠ "" := by
            intro hcon
            rw [if_pos hcon] at hd
            exact hd rfl
          rw [if_neg hvne] at hd
          refine ⟨(key, v), lookup_mem row key v hv, ?_, ?_, hd⟩
          · rw [← hkey]
            exact hkd
          · rw [← hkey]
            exact hka
      · rw [if_neg hd] at h
        exact ih (fun j hj => hcols j (List.mem_cons_of_mem i hj)) h

theorem has_description_iff (headers : List String) (row : RowData) :
    has_description headers row = true ↔ ∃ kv ∈ row, descItemOK kv := by
  unfold has_description
  rw [Bool.or_eq_true]
  constructor
  · rintro (h | h)
    · exact hasDescFromCols_exists headers row _ (fun i hi => hi) h
    · exact (hasDescFallback_iff row).mp h
  · intro h
    exact Or.inr ((hasDescFallback_iff row).mpr h)

unseal Rat.mul Rat.add Rat.sub Rat.inv Rat.ofScientific in
/-- C9: `is_row_valid` holds exactly when a date extracts, an amount
extracts, and some non-date, non-amount-keyword row value is non-empty
after trimming; the empty row is always invalid, and a concrete row
with one date, one amount and one other non-empty column is valid. -/
theorem c9_row_validity :
    (∀ (headers : List String) (row : RowData),
      is_row_valid headers row = true
        ↔ (extract_transaction_date headers row).isSome = true
          ∧ (extract_amount headers row).isSome = true
          ∧ ∃ kv ∈ row, descItemOK kv)
    ∧ (∀ headers : List String, is_row_valid headers [] = false)
    ∧ is_row_valid ["Date", "Amount", "Note"]
        [("Date", "2024-01-02"), ("Amount", "5"), ("Note", "x")] = true := by
  refine ⟨?_, fun headers => rfl, by decide⟩
  intro headers row
  unfold is_row_valid
  by_cases hrow : row.isEmpty
  · rw [if_pos hrow]
    rw [List.isEmpty_iff] at hrow
    subst hrow
    simp
  · rw [if_neg hrow]
    rw [Bool.and_eq_true, Bool.and_eq_true, has_description_iff]
    rw [and_assoc]

/-- Witness for C9 at concrete rows. -/
theorem c9_witness :
    is_row_valid ["Date"] [] = false
    ∧ is_row_valid ["Date", "Amount", "Note"]
        [("Date", "2024-01-02"), ("Amount", "5"), ("Note", "x")] = true :=
  ⟨c9_row_validity.2.1 ["Date"], c9_row_validity.2.2⟩

end Budget
